import Mathlib

/-!
Verification of the MASS multi-source scraping pipeline.

Shallow embedding of the merge / coordination / registry / enrichment logic:
  - `dedupByLink`, `multiSourceMerge`  — app/scraper.py, MultiSourceScraper.scrape
  - `coordCombine`                     — src/scrapers/coordinator.py, ScraperCoordinator.scrape
  - `register_links`, `filter_new_links` — link_registry.py, LinkRegistry
  - `format_result`                    — src/scrapers/base.py, BaseScraper.format_result
  - `process_with_dummy`, `process_with_openai`, `process_results`
                                       — src/agents/processor.py, ContentProcessor
-/

/-- One entry of `metadata.ai_analysis` as written by the content processor. -/
structure AiAnalysis where
  relevance_score : Nat
  content_type : String
  tags : List String
deriving DecidableEq

/-- A value stored in an item's open `metadata` dictionary. -/
inductive MetaVal where
  | boolV : Bool → MetaVal
  | strV : String → MetaVal
  | analysisV : AiAnalysis → MetaVal
deriving DecidableEq

/-- An item's `metadata` dictionary, modelled as an insertion-ordered
association list of string keys. -/
abbrev Metadata := List (String × MetaVal)

/-- One discovered content unit (the ResultItem dictionaries flowing through
the scrapers and the processor).  Required keys are plain fields; keys that
may be absent from the dictionary are `Option` fields. -/
structure ResultItem where
  title : String
  link : String
  thumbnail : String
  source : String
  description : Option String := none
  author : Option String := none
  published_date : Option String := none
  duration : Option String := none
  views : Option String := none
  page_number : Option Nat := none
  metadata : Option Metadata := none
deriving DecidableEq

/-- The dedup loop of `MultiSourceScraper.scrape` (app/scraper.py lines
129-134) and of `ScraperCoordinator.scrape` (coordinator.py lines 93-97):
walk the batch, keep an item when its `link` has not been seen, record the
link as seen. -/
def dedupAux : List ResultItem → List String → List ResultItem
  | [], _ => []
  | item :: rest, seen =>
    if item.link ∈ seen then dedupAux rest seen
    else item :: dedupAux rest (item.link :: seen)

/-- Links recorded as seen after running the dedup loop on a batch. -/
def seenAfter : List ResultItem → List String → List String
  | [], seen => seen
  | item :: rest, seen =>
    if item.link ∈ seen then seenAfter rest seen
    else seenAfter rest (item.link :: seen)

/-- Deduplication by `link` starting from an empty seen-set. -/
def dedupByLink (l : List ResultItem) : List ResultItem :=
  dedupAux l []

/-- The merge step of `MultiSourceScraper.scrape` (app/scraper.py lines
128-136): dedup by `link`, then `unique_results[:50]`. -/
def multiSourceMerge (all_results : List ResultItem) : List ResultItem :=
  (dedupByLink all_results).take 50

/-- Spec-side statement of §4.3 dedup ("first occurrence in input order
wins; later duplicates are dropped"), written from the spec's words to be
compared with the source-derived `dedupByLink`. -/
def firstOcc : List ResultItem → List ResultItem
  | [] => []
  | x :: xs => x :: firstOcc (xs.filter (fun y => y.link ≠ x.link))
termination_by l => l.length
decreasing_by
  simp only [List.length_cons]
  exact Nat.lt_succ_of_le (List.length_filter_le _ _)

/-- One adapter task's settled outcome in `ScraperCoordinator.scrape`: the
adapter's name paired with either the returned item list or the exception
`asyncio.gather(..., return_exceptions=True)` handed back. -/
abbrev Outcome := String × Except String (List ResultItem)

/-- The inner item loop of coordinator.py lines 94-97: add the items of one
adapter's result list, skipping links already seen, threading the seen-set. -/
def addItems : List ResultItem → List String → List ResultItem × List String
  | [], seen => ([], seen)
  | item :: rest, seen =>
    if item.link ∈ seen then addItems rest seen
    else
      let p := addItems rest (item.link :: seen)
      (item :: p.1, p.2)

/-- The outer loop of coordinator.py lines 84-97: skip exceptions, record the
adapter name in `sources_used` when its result list is truthy (non-empty),
accumulate items with cross-adapter dedup by link. -/
def coordLoop : List Outcome → List String → List ResultItem × List String
  | [], _ => ([], [])
  | (_, Except.error _) :: rest, seen => coordLoop rest seen
  | (name, Except.ok items) :: rest, seen =>
    let p := addItems items seen
    let q := coordLoop rest p.2
    (p.1 ++ q.1, if items.isEmpty then q.2 else name :: q.2)

/-- Result-combination of one `ScraperCoordinator.scrape` run: the
`combined_results` and `sources_used` built from the settled tasks. -/
def coordCombine (outcomes : List Outcome) : List ResultItem × List String :=
  coordLoop outcomes []

/-- Concatenation, in registration order, of the item lists of the tasks
that settled without an exception. -/
def flattenOks : List Outcome → List ResultItem
  | [] => []
  | (_, Except.error _) :: rest => flattenOks rest
  | (_, Except.ok items) :: rest => items ++ flattenOks rest

/-! ## Link registry (link_registry.py) -/

/-- One value of the registry's `links` mapping: which script registered the
URL, and when. -/
structure RegEntry where
  script : String
  timestamp : String
deriving DecidableEq

/-- The registry's `links` mapping, URL-keyed, in insertion order. -/
abbrev RegMap := List (String × RegEntry)

/-- `LinkRegistry.register_links` (link_registry.py lines 78-105): for each
truthy URL not already a key, insert it stamped with the script name and the
timestamp and count it; return the updated mapping and the count of newly
added entries. -/
def register_links (links : RegMap) (urls : List String) (script_name timestamp : String) :
    RegMap × Nat :=
  match urls with
  | [] => (links, 0)
  | url :: rest =>
    if url ≠ "" ∧ (links.lookup url).isNone then
      let p := register_links (links ++ [(url, ⟨script_name, timestamp⟩)]) rest script_name timestamp
      (p.1, p.2 + 1)
    else
      register_links links rest script_name timestamp

/-- `LinkRegistry.filter_new_links` (link_registry.py lines 107-133): keep a
truthy URL when it is not a key of the registry, or when the optional script
name is truthy and equals the URL's registered script. -/
def filter_new_links (links : RegMap) (urls : List String) (script_name : Option String) :
    List String :=
  match urls with
  | [] => []
  | url :: rest =>
    if url = "" then filter_new_links links rest script_name
    else
      match links.lookup url with
      | none => url :: filter_new_links links rest script_name
      | some entry =>
        if (match script_name with
            | some s => s ≠ "" && entry.script == s
            | none => false) then
          url :: filter_new_links links rest script_name
        else
          filter_new_links links rest script_name

/-! ## Adapter formatting (src/scrapers/base.py) -/

/-- A raw scraping result handed to `BaseScraper.format_result`: a dictionary
where any of the keys the method reads may be absent. -/
structure RawData where
  title : Option String := none
  link : Option String := none
  thumbnail : Option String := none
  description : Option String := none
  author : Option String := none
  published_date : Option String := none
  duration : Option String := none
  views : Option String := none
  page_number : Option Nat := none
  metadata : Option Metadata := none
deriving DecidableEq

/-- Keep an optional string field only when it is present and truthy
(`if field in data and data[field]`). -/
def keepTruthyStr : Option String → Option String
  | some s => if s = "" then none else some s
  | none => none

/-- `BaseScraper.format_result` (base.py lines 42-72): required fields with
`data.get` defaults, `source or self.name`, then the optional-field
allow-list copied through only when present and truthy. -/
def format_result (name : String) (data : RawData) (source : Option String) : ResultItem :=
  { title := data.title.getD "Untitled Content"
    link := data.link.getD ""
    thumbnail := data.thumbnail.getD ""
    source := match source with
      | some s => if s = "" then name else s
      | none => name
    description := keepTruthyStr data.description
    author := keepTruthyStr data.author
    published_date := keepTruthyStr data.published_date
    duration := keepTruthyStr data.duration
    views := keepTruthyStr data.views
    page_number := match data.page_number with
      | some n => if n = 0 then none else some n
      | none => none
    metadata := match data.metadata with
      | some m => if m.isEmpty then none else some m
      | none => none }

/-! ## Content processor (src/agents/processor.py) -/

/-- Whitespace in the sense of Python's argument-less `str.split`. -/
def pyIsSpace (c : Char) : Bool :=
  c = ' ' || c = '\t' || c = '\n' || c = '\r' || c = '\x0B' || c = '\x0C'

/-- Python `s.lower()` (ASCII model), character by character. -/
def pyLower (s : String) : String :=
  String.mk (s.toList.map Char.toLower)

/-- Python `s.strip()`: drop leading and trailing whitespace. -/
def pyStrip (s : String) : String :=
  String.mk (((s.toList.dropWhile pyIsSpace).reverse.dropWhile pyIsSpace).reverse)

/-- Python `s.split()` scan: accumulate the current token (reversed),
closing it at whitespace; no empty tokens are produced. -/
def pySplitAux : List Char → List Char → List String
  | [], acc => if acc.isEmpty then [] else [String.mk acc.reverse]
  | c :: rest, acc =>
    if pyIsSpace c then
      if acc.isEmpty then pySplitAux rest []
      else String.mk acc.reverse :: pySplitAux rest []
    else pySplitAux rest (c :: acc)

/-- Python `keywords.split()`: split on whitespace runs, no empty tokens. -/
def pySplit (s : String) : List String :=
  pySplitAux s.toList []

/-- processor.py line 202: `[kw.strip().lower() for kw in keywords.split()
if len(kw.strip()) > 2]`. -/
def pyTags (keywords : String) : List String :=
  ((pySplit keywords).filter (fun kw => (pyStrip kw).length > 2)).map
    (fun kw => pyLower (pyStrip kw))

/-- Python `hay.count(needle)` on character lists: non-overlapping
occurrences, scanning left to right.  Each step consumes at least one
character, so the scan is run on structural fuel `hay.length`. -/
def countOccsAux (needle : List Char) : Nat → List Char → Nat
  | 0, _ => 0
  | _ + 1, [] => 0
  | fuel + 1, c :: rest =>
    if needle.isPrefixOf (c :: rest) then
      countOccsAux needle fuel (rest.drop (needle.length - 1)) + 1
    else
      countOccsAux needle fuel rest

/-- Python `hay.count(needle)` on strings. -/
def strCount (hay needle : String) : Nat :=
  countOccsAux needle.toList hay.toList.length hay.toList

/-- Python `needle in hay` on character lists. -/
def listContainsSub (hay needle : List Char) : Bool :=
  match hay with
  | [] => needle.isEmpty
  | _ :: rest => needle.isPrefixOf hay || listContainsSub rest needle

/-- Python `needle in hay` on strings. -/
def containsSub (hay needle : String) : Bool :=
  listContainsSub hay.toList needle.toList

/-- Python dictionary assignment `m[k] = v`: overwrite in place when the key
exists, otherwise append. -/
def dictSet (m : Metadata) (k : String) (v : MetaVal) : Metadata :=
  if (m.lookup k).isSome then
    m.map (fun p => if p.1 = k then (k, v) else p)
  else
    m ++ [(k, v)]

/-- The per-item body of `ContentProcessor._process_with_dummy`
(processor.py lines 204-242): ensure a metadata dict, classify the content
type from the lowered URL in the source's if-chain order, count keyword-tag
occurrences in the lowered title and description, and store the
`ai_analysis` block. -/
def dummyEnhanceItem (tags : List String) (item : ResultItem) : ResultItem :=
  let m := item.metadata.getD []
  let m := dictSet m "processed" (MetaVal.boolV true)
  let url := pyLower item.link
  let content_type :=
    if containsSub url "youtube" then "video"
    else if containsSub url "wikipedia" then "article"
    else if [".jpg", ".png", ".gif"].any (fun ext => containsSub url ext) then "image"
    else if [".pdf", ".doc"].any (fun ext => containsSub url ext) then "document"
    else "webpage"
  let title := pyLower item.title
  let description := pyLower (item.description.getD "")
  let keyword_count :=
    tags.foldl (fun acc tag => acc + strCount title tag + strCount description tag) 0
  let relevance_score := Nat.min 100 (keyword_count * 10)
  let m := dictSet m "ai_analysis"
    (MetaVal.analysisV ⟨relevance_score, content_type, tags.take 5⟩)
  { item with metadata := some m }

/-- `ContentProcessor._process_with_dummy` (processor.py lines 188-244). -/
def process_with_dummy (results : List ResultItem) (keywords : String) : List ResultItem :=
  let tags := pyTags keywords
  results.map (dummyEnhanceItem tags)

/-- The outcome of one per-item remote enrichment call
(`_enhance_item_with_openai`): either the enhanced item, or the exception
`asyncio.gather(..., return_exceptions=True)` hands back. -/
abbrev Enhancer := ResultItem → Except String ResultItem

/-- processor.py lines 91-96: an item whose task settled with an exception is
replaced by the original `batch[j]`; otherwise the task's item is taken. -/
def recoverItem (f : Enhancer) (item : ResultItem) : ResultItem :=
  match f item with
  | Except.ok enhanced => enhanced
  | Except.error _ => item

/-- processor.py lines 79-81: `results[i:i+batch_size]` chunks of size 5. -/
def batches5 : List ResultItem → List (List ResultItem)
  | [] => []
  | x :: xs => ((x :: xs).take 5) :: batches5 (xs.drop 4)
termination_by l => l.length
decreasing_by
  simp only [List.length_cons, List.length_drop]
  omega

/-- `ContentProcessor._process_with_openai` (processor.py lines 65-99):
process batch-of-5 chunks, within a chunk enhancing each item and falling
back to the original on a per-item exception, concatenating in order. -/
def process_with_openai (f : Enhancer) (results : List ResultItem) : List ResultItem :=
  ((batches5 results).map (fun batch => batch.map (recoverItem f))).flatten

/-- `ContentProcessor.process_results` (processor.py lines 42-63): empty
input returned as is; with a client, the remote path; otherwise the dummy
path. -/
def process_results (client : Option Enhancer) (results : List ResultItem) (keywords : String) :
    List ResultItem :=
  if results.isEmpty then results
  else
    match client with
    | some f => process_with_openai f results
    | none => process_with_dummy results keywords

/-! ## Derived predicates and concrete inputs used by the theorems -/

/-- The predicate `filter_new_links` keeps a URL by: the URL is truthy and
either absent from the registry or registered by the given truthy script
name. -/
def filterKeeps (links : RegMap) (script_name : Option String) (u : String) : Bool :=
  u ≠ "" &&
    (match links.lookup u with
     | none => true
     | some entry =>
       match script_name with
       | some s => s ≠ "" && entry.script == s
       | none => false)

/-- A predicate selecting the adapter tasks that settled without an
exception. -/
def okOutcome (p : Outcome) : Bool :=
  match p.2 with
  | Except.ok _ => true
  | Except.error _ => false

/-- A predicate selecting the adapter tasks that settled without an
exception and returned a truthy (non-empty) result list. -/
def okNonemptyOutcome (p : Outcome) : Bool :=
  match p.2 with
  | Except.ok items => !items.isEmpty
  | Except.error _ => false

/-- A concrete item whose `link` is the empty string. -/
def emptyLinkItem : ResultItem :=
  { title := "t", link := "", thumbnail := "", source := "s" }

/-- 51 concrete items with pairwise distinct links. -/
def distinctLinkItems : List ResultItem :=
  (List.range 51).map (fun i => { title := "t", link := toString i, thumbnail := "", source := "s" })

/-- The concrete item of spec §8's deterministic-enrichment example. -/
def catVideoItem : ResultItem :=
  { title := "cat video", link := "https://youtube.com/x", thumbnail := "", source := "s" }

/-! # Theorems

## Link registry -/

theorem lookup_append_eq {β : Type} (l₁ l₂ : List (String × β)) (k : String) :
    (l₁ ++ l₂).lookup k = (l₁.lookup k).or (l₂.lookup k) := by
  induction l₁ with
  | nil => simp [List.lookup]
  | cons a t ih =>
    rcases a with ⟨k1, v1⟩
    simp only [List.cons_append, List.lookup]
    cases h : k == k1 with
    | true => simp
    | false => simpa using ih

theorem register_links_lookup (urls : List String) (links : RegMap) (r ts u : String) :
    ((register_links links urls r ts).1.lookup u)
      = (links.lookup u).or (if u ≠ "" ∧ u ∈ urls then some ⟨r, ts⟩ else none) := by
  induction urls generalizing links with
  | nil => simp [register_links]
  | cons url rest ih =>
    simp only [register_links]
    by_cases hc : url ≠ "" ∧ (links.lookup url).isNone
    · rw [if_pos hc]
      rw [ih, lookup_append_eq]
      rcases h : links.lookup u with _ | v
      · simp only [Option.none_or]
        by_cases hu : u = url
        · subst hu
          have : (([(u, (⟨r, ts⟩ : RegEntry))] : RegMap).lookup u) = some ⟨r, ts⟩ := by
            simp [List.lookup]
          rw [this]
          simp [hc.1]
        · have hb : (u == url) = false := by simp [hu]
          have : (([(url, (⟨r, ts⟩ : RegEntry))] : RegMap).lookup u) = none := by
            simp [List.lookup, hb]
          rw [this]
          simp [hu]
      · simp
    · rw [if_neg hc]
      rw [ih]
      rcases h : links.lookup u with _ | v
      · simp only [Option.none_or]
        by_cases hu : u = url
        · subst hu
          have hurl : u = "" := by
            rcases not_and_or.mp hc with h1 | h2
            · simpa using h1
            · rw [h] at h2; simp at h2
          simp [hurl]
        · simp [hu]
      · simp

theorem register_links_length (urls : List String) (links : RegMap) (r ts : String) :
    (register_links links urls r ts).1.length = links.length + (register_links links urls r ts).2 := by
  induction urls generalizing links with
  | nil => simp [register_links]
  | cons url rest ih =>
    simp only [register_links]
    by_cases hc : url ≠ "" ∧ (links.lookup url).isNone
    · rw [if_pos hc]
      have := ih (links ++ [(url, ⟨r, ts⟩)])
      simp only [List.length_append, List.length_cons, List.length_nil] at this
      simp only [this]
      omega
    · rw [if_neg hc]
      exact ih links

theorem filter_new_links_eq_filter (urls : List String) (links : RegMap) (sn : Option String) :
    filter_new_links links urls sn = urls.filter (filterKeeps links sn) := by
  induction urls with
  | nil => simp [filter_new_links]
  | cons url rest ih =>
    simp only [filter_new_links, List.filter]
    by_cases h0 : url = ""
    · subst h0
      simp [filterKeeps, ih]
    · rcases hl : links.lookup url with _ | entry
      · simp [h0, hl, filterKeeps, ih]
      · rcases sn with _ | s
        · simp [h0, hl, filterKeeps, ih]
        · by_cases hs : s ≠ "" ∧ entry.script = s
          · simp [h0, hl, filterKeeps, hs.1, hs.2, ih]
          · rcases not_and_or.mp hs with h1 | h2
            · have hs0 : s = "" := by simpa using h1
              subst hs0
              simp [h0, hl, filterKeeps, ih]
            · have hb : (entry.script == s) = false := by simpa using h2
              simp [h0, hl, filterKeeps, hb, ih]

/-- Claim C10: an empty-string (falsy) URL is never returned by
`filter_new_links` even when absent from the registry, never added to the
registry by `register_links`, and never counted toward the returned count
of newly added entries. -/
theorem falsy_urls_never_registered_or_returned
    (links : RegMap) (urls : List String) (sn : Option String) (r ts : String) :
    "" ∉ filter_new_links links urls sn
    ∧ filter_new_links links (urls.filter (fun u => u ≠ "")) sn = filter_new_links links urls sn
    ∧ register_links links (urls.filter (fun u => u ≠ "")) r ts = register_links links urls r ts := by
  refine ⟨?_, ?_, ?_⟩
  · rw [filter_new_links_eq_filter]
    intro hmem
    have := (List.mem_filter.mp hmem).2
    simp [filterKeeps] at this
  · rw [filter_new_links_eq_filter, filter_new_links_eq_filter, List.filter_filter]
    apply List.filter_congr
    intro u _
    by_cases h : u = "" <;> simp [filterKeeps, h]
  · induction urls generalizing links with
    | nil => simp
    | cons url rest ih =>
      by_cases h : url = ""
      · subst h
        have : (register_links links ("" :: rest) r ts) = register_links links rest r ts := by
          simp [register_links]
        rw [this, ← ih links]
        simp
      · have hf : ("" :: rest).filter (fun u => u ≠ "") = rest.filter (fun u => u ≠ "") := by simp
        simp only [List.filter]
        have hd : (decide (url ≠ "")) = true := by simp [h]
        rw [hd]
        simp only [register_links]
        by_cases hc : url ≠ "" ∧ (links.lookup url).isNone
        · rw [if_pos hc, if_pos hc, ih]
        · rw [if_neg hc, if_neg hc, ih]

/-- Claim C4, counterexample: `filter_new_links` drops an empty-string URL
even when it is absent from the registry; the round trip after
`register_links` with the same registrant does not return the full list when
the list holds an empty URL, when the registrant name is empty, or when a
URL was previously registered by a different registrant. -/
theorem filter_new_links_claim_counterexample :
    filter_new_links [] [""] (some "s1") = []
    ∧ filter_new_links (register_links [] [""] "s1" "t1").1 [""] (some "s1") = []
    ∧ filter_new_links (register_links [] ["https://a.com"] "" "t1").1
        ["https://a.com"] (some "") = []
    ∧ filter_new_links
        (register_links [("https://a.com", ⟨"s0", "t0"⟩)] ["https://a.com"] "s1" "t1").1
        ["https://a.com"] (some "s1") = [] := by
  refine ⟨by decide, by decide, by decide, by decide⟩

/-- Claim C4 (amended): `filter_new_links` keeps exactly the non-empty URLs
that are absent from the registry or whose entry was registered by the given
non-empty registrant; right after `register_links` on an initially empty
registry, the same non-empty registrant gets the full list of non-empty URLs
back, and a different registrant gets the empty list. -/
theorem filter_new_links_amended :
    (∀ (links : RegMap) (urls : List String) (sn : Option String),
        filter_new_links links urls sn = urls.filter (filterKeeps links sn))
    ∧ (∀ (urls : List String) (r ts : String), r ≠ "" → (∀ u ∈ urls, u ≠ "") →
        filter_new_links (register_links [] urls r ts).1 urls (some r) = urls)
    ∧ (∀ (urls : List String) (r r2 ts : String), r2 ≠ r →
        filter_new_links (register_links [] urls r ts).1 urls (some r2) = []) := by
  refine ⟨fun links urls sn => filter_new_links_eq_filter urls links sn, ?_, ?_⟩
  · intro urls r ts hr hne
    rw [filter_new_links_eq_filter]
    apply List.filter_eq_self.mpr
    intro u hu
    have hlook := register_links_lookup urls [] r ts u
    rw [if_pos ⟨hne u hu, hu⟩] at hlook
    simp only [List.lookup, Option.none_or] at hlook
    simp [filterKeeps, hlook, hne u hu, hr]
  · intro urls r r2 ts hne
    rw [filter_new_links_eq_filter]
    apply List.filter_eq_nil_iff.mpr
    intro u hu
    by_cases h0 : u = ""
    · simp [filterKeeps, h0]
    · have hlook := register_links_lookup urls [] r ts u
      rw [if_pos ⟨h0, hu⟩] at hlook
      simp only [List.lookup, Option.none_or] at hlook
      have hb : ((⟨r, ts⟩ : RegEntry).script == r2) = false := by
        simp only [RegEntry.mk.injEq]
        simpa using fun h => hne h.symm
      simp [filterKeeps, hlook, hb]

/-- Claim C4 (amended), witness: one same-registrant round trip on a
concrete non-empty URL list returns the list unchanged. -/
theorem filter_new_links_amended_witness :
    ("s1" ≠ "" ∧ (∀ u ∈ ["https://a.com", "https://b.com"], u ≠ ""))
    ∧ filter_new_links (register_links [] ["https://a.com", "https://b.com"] "s1" "t1").1
        ["https://a.com", "https://b.com"] (some "s1") = ["https://a.com", "https://b.com"] :=
  ⟨⟨by decide, by decide⟩,
    filter_new_links_amended.2.1 ["https://a.com", "https://b.com"] "s1" "t1"
      (by decide) (by decide)⟩

/-- Claim C5, counterexample: on an empty registry, registering the list
`[""]` adds nothing and returns 0, although the URL `""` was not already
present — so register does not add every URL not already present. -/
theorem register_links_claim_counterexample :
    (register_links [] [""] "s1" "t1").1.lookup "" = none
    ∧ (register_links [] [""] "s1" "t1").2 = 0 := by
  exact ⟨by decide, by decide⟩

/-- Claim C5 (amended): `register_links` adds exactly the non-empty URLs not
already present, stamped with the registrant and the timestamp, leaves
already-present entries unchanged (first registrant wins), and returns the
count of newly added entries (the growth of the registry); on an empty
registry, registering two distinct URLs returns 2 and re-registering one of
them returns 0. -/
theorem register_links_amended :
    (∀ (links : RegMap) (urls : List String) (r ts u : String),
        ((register_links links urls r ts).1.lookup u)
          = (links.lookup u).or (if u ≠ "" ∧ u ∈ urls then some ⟨r, ts⟩ else none))
    ∧ (∀ (links : RegMap) (urls : List String) (r ts : String),
        (register_links links urls r ts).2
          = (register_links links urls r ts).1.length - links.length)
    ∧ (register_links [] ["https://a.com", "https://b.com"] "s1" "t1").2 = 2
    ∧ (register_links (register_links [] ["https://a.com", "https://b.com"] "s1" "t1").1
        ["https://a.com"] "s1" "t2").2 = 0 := by
  refine ⟨fun links urls r ts u => register_links_lookup urls links r ts u, ?_, by decide, by decide⟩
  intro links urls r ts
  have := register_links_length urls links r ts
  omega

/-! ## Merge and coordination -/

theorem dedupAux_eq_firstOcc (l : List ResultItem) (seen : List String) :
    dedupAux l seen = firstOcc (l.filter (fun x => decide (x.link ∉ seen))) := by
  induction l generalizing seen with
  | nil => simp [dedupAux, firstOcc]
  | cons x xs ih =>
    by_cases h : x.link ∈ seen
    · simp only [dedupAux, if_pos h]
      rw [ih]
      congr 1
      simp [List.filter, h]
    · simp only [dedupAux, if_neg h]
      rw [ih]
      have hfil : (x :: xs).filter (fun y => decide (y.link ∉ seen))
          = x :: xs.filter (fun y => decide (y.link ∉ seen)) := by
        simp [List.filter, h]
      rw [hfil, firstOcc, List.filter_filter]
      congr 1
      congr 1
      apply List.filter_congr
      intro y _
      by_cases hy : y.link = x.link <;> by_cases hs : y.link ∈ seen <;> simp [hy, hs]

theorem dedupByLink_eq_firstOcc (l : List ResultItem) : dedupByLink l = firstOcc l := by
  rw [dedupByLink, dedupAux_eq_firstOcc]
  congr 1
  apply List.filter_eq_self.mpr
  intro a _
  simp

theorem link_mem_dedupAux {s : String} (l : List ResultItem) :
    ∀ (seen : List String), s ∈ (dedupAux l seen).map (fun x => x.link) → s ∉ seen := by
  induction l with
  | nil => intro seen h; simp [dedupAux] at h
  | cons x xs ih =>
    intro seen h
    by_cases hx : x.link ∈ seen
    · rw [dedupAux, if_pos hx] at h
      exact ih seen h
    · simp only [dedupAux, if_neg hx, List.map_cons, List.mem_cons] at h
      rcases h with h | h
      · subst h; exact hx
      · intro hs
        exact (ih _ h) (List.mem_cons_of_mem _ hs)

theorem dedupAux_links_nodup (l : List ResultItem) :
    ∀ (seen : List String), ((dedupAux l seen).map (fun x => x.link)).Nodup := by
  induction l with
  | nil => intro seen; simp [dedupAux]
  | cons x xs ih =>
    intro seen
    by_cases hx : x.link ∈ seen
    · simp only [dedupAux, if_pos hx]; exact ih seen
    · simp only [dedupAux, if_neg hx, List.map_cons]
      rw [List.nodup_cons]
      refine ⟨fun hmem => ?_, ih _⟩
      exact (link_mem_dedupAux xs _ hmem) (List.mem_cons_self _ _)

theorem dedupAux_eq_self (l : List ResultItem) :
    ∀ (seen : List String), (l.map (fun x => x.link)).Nodup →
    (∀ x ∈ l, x.link ∉ seen) → dedupAux l seen = l := by
  induction l with
  | nil => intro seen _ _; simp [dedupAux]
  | cons x xs ih =>
    intro seen hn hd
    simp only [List.map_cons, List.nodup_cons] at hn
    have hx : x.link ∉ seen := hd x (List.mem_cons_self _ _)
    simp only [dedupAux, if_neg hx]
    congr 1
    apply ih _ hn.2
    intro y hy hmem
    rcases List.mem_cons.mp hmem with h | h
    · exact hn.1 (h ▸ List.mem_map_of_mem _ hy)
    · exact hd y (List.mem_cons_of_mem _ hy) h

theorem filter_link_once {l : List ResultItem}
    (hn : (l.map (fun x => x.link)).Nodup) (c : String) :
    (l.filter (fun x => decide (x.link = c))).length ≤ 1 := by
  induction l with
  | nil => simp
  | cons x xs ih =>
    simp only [List.map_cons, List.nodup_cons] at hn
    by_cases hx : x.link = c
    · have hnil : xs.filter (fun x => decide (x.link = c)) = [] := by
        apply List.filter_eq_nil_iff.mpr
        intro y hy
        simp only [decide_eq_true_eq]
        intro hyc
        apply hn.1
        have : x.link = y.link := by rw [hx, hyc]
        rw [this]
        exact List.mem_map_of_mem _ hy
      simp [List.filter, hx, hnil]
    · have : (x :: xs).filter (fun x => decide (x.link = c))
          = xs.filter (fun x => decide (x.link = c)) := by
        simp [List.filter, hx]
      rw [this]
      exact ih hn.2

theorem addItems_eq (l : List ResultItem) :
    ∀ (seen : List String), addItems l seen = (dedupAux l seen, seenAfter l seen) := by
  induction l with
  | nil => intro seen; simp [addItems, dedupAux, seenAfter]
  | cons x xs ih =>
    intro seen
    by_cases hx : x.link ∈ seen
    · simp only [addItems, dedupAux, seenAfter, if_pos hx]
      exact ih seen
    · simp only [addItems, dedupAux, seenAfter, if_neg hx, ih]

theorem dedupAux_append (l₁ l₂ : List ResultItem) :
    ∀ (seen : List String),
    dedupAux (l₁ ++ l₂) seen = dedupAux l₁ seen ++ dedupAux l₂ (seenAfter l₁ seen) := by
  induction l₁ with
  | nil => intro seen; simp [dedupAux, seenAfter]
  | cons x xs ih =>
    intro seen
    by_cases hx : x.link ∈ seen
    · simp only [List.cons_append, dedupAux, seenAfter, if_pos hx]
      exact ih seen
    · simp only [List.cons_append, dedupAux, seenAfter, if_neg hx, List.append_eq]
      rw [ih]

theorem coordLoop_fst (outcomes : List Outcome) :
    ∀ (seen : List String), (coordLoop outcomes seen).1 = dedupAux (flattenOks outcomes) seen := by
  induction outcomes with
  | nil => intro seen; simp [coordLoop, flattenOks, dedupAux]
  | cons p rest ih =>
    intro seen
    rcases p with ⟨name, res⟩
    rcases res with e | items
    · simp only [coordLoop, flattenOks]
      exact ih seen
    · simp only [coordLoop, flattenOks, addItems_eq]
      rw [dedupAux_append, ih]

theorem coordLoop_snd (outcomes : List Outcome) :
    ∀ (seen : List String),
    (coordLoop outcomes seen).2 = (outcomes.filter okNonemptyOutcome).map Prod.fst := by
  induction outcomes with
  | nil => intro seen; simp [coordLoop]
  | cons p rest ih =>
    intro seen
    rcases p with ⟨name, res⟩
    rcases res with e | items
    · simp only [coordLoop, List.filter, okNonemptyOutcome]
      exact ih seen
    · cases hemp : items.isEmpty with
      | true =>
        simp only [coordLoop, addItems_eq, hemp, if_pos rfl, List.filter, okNonemptyOutcome, hemp,
          Bool.not_true]
        exact ih _
      | false =>
        simp only [coordLoop, addItems_eq, hemp, Bool.false_eq_true, if_false, List.filter,
          okNonemptyOutcome, hemp, Bool.not_false, List.map_cons]
        rw [ih]

theorem flattenOks_filter_ok (outcomes : List Outcome) :
    flattenOks (outcomes.filter okOutcome) = flattenOks outcomes := by
  induction outcomes with
  | nil => simp [flattenOks]
  | cons p rest ih =>
    rcases p with ⟨name, res⟩
    rcases res with e | items
    · simp only [List.filter, okOutcome, flattenOks]
      exact ih
    · simp only [List.filter, okOutcome, flattenOks]
      rw [ih]

theorem multiSourceMerge_links_nodup (l : List ResultItem) :
    ((multiSourceMerge l).map (fun x => x.link)).Nodup := by
  rw [multiSourceMerge, List.map_take]
  exact (dedupAux_links_nodup _ _).sublist (List.take_sublist _ _)

/-- Claim C1: in every coordinator run the merged result sequence has no two
items with the same `link`; when input items share a link, the first
occurrence in input order (adapter-registration order, then each adapter's
own item order) is kept and every later duplicate is dropped — the combined
result equals the spec-side first-occurrence function on the concatenation
of the successful lists, and the same holds for the `MultiSourceScraper`
merge. -/
theorem merged_results_dedup_first_occurrence_wins
    (outcomes : List Outcome) (l : List ResultItem) :
    (((coordCombine outcomes).1.map (fun x => x.link)).Nodup)
    ∧ (coordCombine outcomes).1 = firstOcc (flattenOks outcomes)
    ∧ ((multiSourceMerge l).map (fun x => x.link)).Nodup
    ∧ dedupByLink l = firstOcc l := by
  refine ⟨?_, ?_, ?_, dedupByLink_eq_firstOcc l⟩
  · rw [coordCombine, coordLoop_fst]
    exact dedupAux_links_nodup _ _
  · rw [coordCombine, coordLoop_fst]
    exact dedupByLink_eq_firstOcc _
  · exact multiSourceMerge_links_nodup l

/-- Claim C2, counterexample: the cited merge steps do not drop empty-link
items — `MultiSourceScraper`'s merge keeps an item whose `link` is the empty
string — and `ScraperCoordinator`'s merge does not truncate: a single
adapter returning 51 distinct links yields a 51-item final result. -/
theorem merge_claim_counterexample :
    multiSourceMerge [emptyLinkItem] = [emptyLinkItem]
    ∧ emptyLinkItem.link = ""
    ∧ (coordCombine [("s", Except.ok distinctLinkItems)]).1.length = 51 := by
  refine ⟨by decide, by decide, by decide⟩

/-- Claim C2 (amended): the `MultiSourceScraper` merge truncates the
deduplicated output to at most 50 items but keeps empty-link items, and the
coordinator merge neither drops empty links nor truncates; in both, dedup by
`link` leaves at most one empty-link item in the final result. -/
theorem merge_truncation_and_empty_link_amended
    (l : List ResultItem) (outcomes : List Outcome) :
    (multiSourceMerge l).length ≤ 50
    ∧ ((multiSourceMerge l).filter (fun x => decide (x.link = ""))).length ≤ 1
    ∧ (((coordCombine outcomes).1).filter (fun x => decide (x.link = ""))).length ≤ 1 := by
  refine ⟨List.length_take_le _ _, ?_, ?_⟩
  · exact filter_link_once (multiSourceMerge_links_nodup l) ""
  · have hn : (((coordCombine outcomes).1).map (fun x => x.link)).Nodup := by
      rw [coordCombine, coordLoop_fst]
      exact dedupAux_links_nodup _ _
    exact filter_link_once hn ""

/-- Claim C3: an adapter task that settles with an error contributes zero
items and is excluded from `sources_used` — removing the errored tasks
leaves the whole combination unchanged — and an adapter's name appears in
`sources_used` exactly for the tasks that succeeded with a truthy
(non-empty) list, in registration order. -/
theorem failed_adapter_isolated_sources_used
    (outcomes : List Outcome) :
    coordCombine outcomes = coordCombine (outcomes.filter okOutcome)
    ∧ (coordCombine outcomes).2 = (outcomes.filter okNonemptyOutcome).map Prod.fst := by
  constructor
  · have h1 : (coordCombine outcomes).1 = (coordCombine (outcomes.filter okOutcome)).1 := by
      rw [coordCombine, coordCombine, coordLoop_fst, coordLoop_fst, flattenOks_filter_ok]
    have h2 : (coordCombine outcomes).2 = (coordCombine (outcomes.filter okOutcome)).2 := by
      rw [coordCombine, coordCombine, coordLoop_snd, coordLoop_snd, List.filter_filter]
      congr 1
      apply List.filter_congr
      intro p _
      rcases p with ⟨name, res⟩
      rcases res with e | items <;> simp [okOutcome, okNonemptyOutcome]
    exact Prod.ext h1 h2
  · rw [coordCombine, coordLoop_snd]

/-- Claim C6: the merge function is total by construction and idempotent —
for every batch `x` already satisfying the dedup invariant (pairwise
distinct links), re-running the merge on its own output yields the identical
sequence, both for the `MultiSourceScraper` merge and for the coordinator's
dedup. -/
theorem merge_idempotent (x : List ResultItem)
    (h : (x.map (fun i => i.link)).Nodup) :
    multiSourceMerge (multiSourceMerge x) = multiSourceMerge x
    ∧ dedupByLink (dedupByLink x) = dedupByLink x := by
  have hd : ∀ (y : List ResultItem), (y.map (fun i => i.link)).Nodup →
      dedupByLink y = y := by
    intro y hy
    exact dedupAux_eq_self y [] hy (by simp)
  constructor
  · have hn : ((multiSourceMerge x).map (fun i => i.link)).Nodup :=
      multiSourceMerge_links_nodup x
    show (dedupByLink (multiSourceMerge x)).take 50 = multiSourceMerge x
    rw [hd _ hn]
    show ((dedupByLink x).take 50).take 50 = (dedupByLink x).take 50
    rw [List.take_take, min_self]
  · exact hd _ (dedupAux_links_nodup x [])

/-- Claim C6, witness: idempotence at a concrete two-item batch satisfying
the dedup invariant. -/
theorem merge_idempotent_witness :
    (([catVideoItem, emptyLinkItem].map (fun i => i.link)).Nodup)
    ∧ (multiSourceMerge (multiSourceMerge [catVideoItem, emptyLinkItem])
          = multiSourceMerge [catVideoItem, emptyLinkItem]
        ∧ dedupByLink (dedupByLink [catVideoItem, emptyLinkItem])
          = dedupByLink [catVideoItem, emptyLinkItem]) :=
  ⟨by decide, merge_idempotent [catVideoItem, emptyLinkItem] (by decide)⟩

/-! ## Content processor -/

theorem batches5_flatten_le (n : Nat) :
    ∀ (l : List ResultItem), l.length ≤ n → (batches5 l).flatten = l := by
  induction n with
  | zero =>
    intro l h
    have : l = [] := List.eq_nil_of_length_eq_zero (Nat.le_zero.mp h)
    subst this
    simp [batches5]
  | succ n ih =>
    intro l h
    cases l with
    | nil => simp [batches5]
    | cons x xs =>
      rw [batches5, List.flatten_cons]
      rw [ih (xs.drop 4) (by simp only [List.length_drop]; simp at h; omega)]
      rw [List.take_succ_cons, List.cons_append]
      congr 1
      have h4 : xs.drop 4 = List.drop 4 xs := rfl
      calc xs.take 4 ++ xs.drop 4 = xs := List.take_append_drop 4 xs

theorem batches5_flatten (l : List ResultItem) : (batches5 l).flatten = l :=
  batches5_flatten_le l.length l (Nat.le_refl _)

theorem process_with_openai_eq_map (f : Enhancer) (results : List ResultItem) :
    process_with_openai f results = results.map (recoverItem f) := by
  rw [process_with_openai, ← List.map_flatten, batches5_flatten]

/-- Claim C7: the enrichment stage returns a sequence of the same length and
in the same order as its input, never dropping an item, and every item whose
per-item enrichment fails is passed through unmodified: both enrichment
paths are the per-item recovery map over the input, and `process_results`
always preserves length. -/
theorem enrichment_preserves_length_and_order
    (f : Enhancer) (client : Option Enhancer) (results : List ResultItem) (keywords : String) :
    process_with_openai f results = results.map (recoverItem f)
    ∧ process_results (some f) results keywords = results.map (recoverItem f)
    ∧ process_results none results keywords = results.map (dummyEnhanceItem (pyTags keywords))
    ∧ (process_results client results keywords).length = results.length := by
  refine ⟨process_with_openai_eq_map f results, ?_, ?_, ?_⟩
  · unfold process_results
    by_cases h : results.isEmpty
    · rw [if_pos h]
      have : results = [] := by simpa [List.isEmpty_iff] using h
      simp [this]
    · rw [if_neg h]
      exact process_with_openai_eq_map f results
  · unfold process_results
    by_cases h : results.isEmpty
    · rw [if_pos h]
      have : results = [] := by simpa [List.isEmpty_iff] using h
      simp [this]
    · rw [if_neg h]
      rfl
  · unfold process_results
    by_cases h : results.isEmpty
    · rw [if_pos h]
    · rw [if_neg h]
      cases client with
      | some f2 => simp [process_with_openai_eq_map]
      | none => simp [process_with_dummy]

theorem lookup_map_replace (m : Metadata) (k : String) (v : MetaVal)
    (h : (m.lookup k).isSome) :
    (m.map (fun p => if p.1 = k then (k, v) else p)).lookup k = some v := by
  induction m with
  | nil => simp at h
  | cons p rest ih =>
    rcases p with ⟨k1, v1⟩
    simp only [List.map_cons]
    by_cases hk : k1 = k
    · subst hk
      rw [if_pos rfl]
      simp [List.lookup]
    · rw [if_neg hk]
      have hb : (k == k1) = false := by
        simp only [beq_eq_false_iff_ne, ne_eq]
        exact fun hh => hk hh.symm
      simp only [List.lookup, hb]
      apply ih
      simp only [List.lookup, hb] at h
      exact h

theorem dictSet_lookup_self (m : Metadata) (k : String) (v : MetaVal) :
    (dictSet m k v).lookup k = some v := by
  rw [dictSet]
  by_cases h : (m.lookup k).isSome
  · rw [if_pos h]
    exact lookup_map_replace m k v h
  · rw [if_neg h]
    rw [lookup_append_eq]
    have hn : m.lookup k = none := Option.not_isSome_iff_eq_none.mp h
    simp [hn, List.lookup]

theorem foldl_add_pair_eq_sum (tags : List String) (f g : String → Nat) :
    ∀ (acc : Nat),
    tags.foldl (fun a t => a + f t + g t) acc = acc + (tags.map (fun t => f t + g t)).sum := by
  induction tags with
  | nil => intro acc; simp
  | cons t ts ih =>
    intro acc
    simp only [List.foldl_cons, List.map_cons, List.sum_cons]
    rw [ih]
    omega

/-- Claim C8: the deterministic fallback enrichment writes into
`metadata.ai_analysis` a relevance score of min(100, 10 × total
keyword-token occurrences in title plus description), at most 5 lowercase
keyword tokens of length > 2 as tags, and a content type classified by URL
substrings in the priority order video, article, image, document, webpage;
for the "cat video" / youtube.com item with keywords "cat" it yields
content type "video" and relevance score 10. -/
theorem dummy_enrichment_scores_and_classification (item : ResultItem) (keywords : String) :
    (((dummyEnhanceItem (pyTags keywords) item).metadata.getD []).lookup "ai_analysis"
      = some (MetaVal.analysisV
          { relevance_score := Nat.min 100
              (10 * ((pyTags keywords).map (fun tag =>
                  strCount (pyLower item.title) tag
                  + strCount (pyLower (item.description.getD "")) tag)).sum)
            content_type :=
              if containsSub (pyLower item.link) "youtube" then "video"
              else if containsSub (pyLower item.link) "wikipedia" then "article"
              else if [".jpg", ".png", ".gif"].any (fun ext => containsSub (pyLower item.link) ext)
                then "image"
              else if [".pdf", ".doc"].any (fun ext => containsSub (pyLower item.link) ext)
                then "document"
              else "webpage"
            tags := (pyTags keywords).take 5 }))
    ∧ ((pyTags keywords).take 5).length ≤ 5
    ∧ (∀ t ∈ (pyTags keywords).take 5,
        ∃ kw, kw ∈ pySplit keywords ∧ (pyStrip kw).length > 2 ∧ t = pyLower (pyStrip kw))
    ∧ process_with_dummy [catVideoItem] "cat"
        = [{ catVideoItem with metadata := some [("processed", MetaVal.boolV true),
              ("ai_analysis", MetaVal.analysisV ⟨10, "video", ["cat"]⟩)] }] := by
  refine ⟨?_, List.length_take_le _ _, ?_, by decide⟩
  · show ((dictSet (dictSet (item.metadata.getD []) "processed" (MetaVal.boolV true))
        "ai_analysis" _).lookup "ai_analysis") = _
    rw [dictSet_lookup_self]
    congr 2
    rw [foldl_add_pair_eq_sum]
    rw [Nat.zero_add, Nat.mul_comm]
  · intro t ht
    have ht2 : t ∈ pyTags keywords := List.take_subset _ _ ht
    rw [pyTags] at ht2
    rcases List.mem_map.mp ht2 with ⟨kw, hkw, rfl⟩
    rcases List.mem_filter.mp hkw with ⟨hk1, hk2⟩
    exact ⟨kw, hk1, by simpa using hk2, rfl⟩

/-- Claim C8, witness: the concrete spec §8 example evaluated through the
theorem. -/
theorem dummy_enrichment_scores_and_classification_witness :
    ((dummyEnhanceItem (pyTags "cat") catVideoItem).metadata.getD []).lookup "ai_analysis"
      = some (MetaVal.analysisV ⟨10, "video", ["cat"]⟩) := by
  rw [(dummy_enrichment_scores_and_classification catVideoItem "cat").1]
  decide

/-! ## Adapter formatting -/

theorem keepTruthyStr_some {o : Option String} {v : String}
    (h : keepTruthyStr o = some v) : o = some v ∧ v ≠ "" := by
  cases o with
  | none => simp [keepTruthyStr] at h
  | some s =>
    simp only [keepTruthyStr] at h
    by_cases hs : s = ""
    · rw [if_pos hs] at h
      exact absurd h (by simp)
    · rw [if_neg hs] at h
      injection h with h2
      subst h2
      exact ⟨rfl, hs⟩

/-- Claim C9: `format_result` defaults `title` to "Untitled Content" and
`link`/`thumbnail` to the empty string when absent, tags `source` with the
adapter's own name unless a truthy override is supplied, and contains an
optional allow-listed field only when that field is present and truthy in
the raw input. -/
theorem format_result_defaults_and_truthy_fields
    (name : String) (data : RawData) (source : Option String) :
    (data.title = none → (format_result name data source).title = "Untitled Content")
    ∧ (data.link = none → (format_result name data source).link = "")
    ∧ (data.thumbnail = none → (format_result name data source).thumbnail = "")
    ∧ (source = none → (format_result name data source).source = name)
    ∧ (∀ s, source = some s → s ≠ "" → (format_result name data source).source = s)
    ∧ (∀ v, (format_result name data source).description = some v →
        data.description = some v ∧ v ≠ "")
    ∧ (∀ v, (format_result name data source).author = some v →
        data.author = some v ∧ v ≠ "")
    ∧ (∀ v, (format_result name data source).published_date = some v →
        data.published_date = some v ∧ v ≠ "")
    ∧ (∀ v, (format_result name data source).duration = some v →
        data.duration = some v ∧ v ≠ "")
    ∧ (∀ v, (format_result name data source).views = some v →
        data.views = some v ∧ v ≠ "")
    ∧ (∀ n, (format_result name data source).page_number = some n →
        data.page_number = some n ∧ n ≠ 0)
    ∧ (∀ m, (format_result name data source).metadata = some m →
        data.metadata = some m ∧ m ≠ []) := by
  refine ⟨?_, ?_, ?_, ?_, ?_, ?_, ?_, ?_, ?_, ?_, ?_, ?_⟩
  · intro h; simp [format_result, h]
  · intro h; simp [format_result, h]
  · intro h; simp [format_result, h]
  · intro h; subst h; simp [format_result]
  · intro s hs hne; subst hs; simp [format_result, hne]
  · intro v hv; exact keepTruthyStr_some hv
  · intro v hv; exact keepTruthyStr_some hv
  · intro v hv; exact keepTruthyStr_some hv
  · intro v hv; exact keepTruthyStr_some hv
  · intro v hv; exact keepTruthyStr_some hv
  · intro n hn
    simp only [format_result] at hn
    rcases hp : data.page_number with _ | m
    · simp [hp] at hn
    · simp only [hp] at hn
      by_cases hm : m = 0
      · rw [if_pos hm] at hn
        exact absurd hn (by simp)
      · rw [if_neg hm] at hn
        injection hn with h2
        subst h2
        exact ⟨rfl, hm⟩
  · intro m hm
    simp only [format_result] at hm
    rcases hp : data.metadata with _ | md
    · simp [hp] at hm
    · simp only [hp] at hm
      by_cases hmd : md.isEmpty
      · rw [if_pos hmd] at hm
        exact absurd hm (by simp)
      · rw [if_neg hmd] at hm
        injection hm with h2
        subst h2
        refine ⟨rfl, ?_⟩
        simpa [List.isEmpty_iff] using hmd

/-- Claim C9, witness: the defaults and the source override evaluated at
concrete raw inputs. -/
theorem format_result_defaults_witness :
    (format_result "playwright" {} none).title = "Untitled Content"
    ∧ (format_result "playwright" {} none).link = ""
    ∧ (format_result "playwright" {} none).thumbnail = ""
    ∧ (format_result "playwright" {} none).source = "playwright"
    ∧ (format_result "playwright" {} (some "bing")).source = "bing" :=
  ⟨(format_result_defaults_and_truthy_fields "playwright" {} none).1 rfl,
   (format_result_defaults_and_truthy_fields "playwright" {} none).2.1 rfl,
   (format_result_defaults_and_truthy_fields "playwright" {} none).2.2.1 rfl,
   (format_result_defaults_and_truthy_fields "playwright" {} none).2.2.2.1 rfl,
   (format_result_defaults_and_truthy_fields "playwright" {} (some "bing")).2.2.2.2.1
     "bing" rfl (by decide)⟩
